import Mathlib

/-!
Shallow embedding of the osbuild/metrics analytics engine
(`src/ibmetrics/metrics.py` and `src/report.py`).

Modelling conventions:

* A pandas `DataFrame` of build records becomes a `List` of records.
  Record fields keep the source column names.
* `created_at` timestamps are integers in seconds for the linear-time
  functions (`value_sliding_window`, `builds_over_time`, `repeat_orgs`,
  `dau_over_mau`); pandas stores nanoseconds, which only rescales the
  unit.  One day (`pandas.Timedelta(days=1)`) is `dayTd = 86400`.
* The calendar-month functions (`monthly_value` and friends) only ever
  compare a timestamp against the first day of some month, so for them a
  timestamp is a pair: an absolute month index (`year*12 + month`) and a
  sub-month offset; chronological order is lexicographic.  The first day
  of a month is the pair with offset 0.
* `Series.min()/max()` on the `datetime64` column `created_at` (the
  reader parses it with `np.datetime64`) return `NaT` on an empty frame;
  this is modelled with `Option`, `none` standing for `NaT`.
* Python exceptions become `Except PyError`; `PyError.emptyDatasetError`
  models the `EmptyDatasetError` class named by the specification (no
  such class exists anywhere in the repository, the constructor exists
  so that statements about it can be written down), `PyError.pandasError`
  models a generic pandas `TypeError`/`ValueError`.
-/

/-- One day, `pandas.Timedelta(days=1)`, with timestamps in seconds. -/
def dayTd : Int := 86400

/-- Exception classes the modelled code can surface.  `emptyDatasetError`
models the `EmptyDatasetError` of the specification's error taxonomy; the
repository defines no such class, and no modelled function ever produces
this value.  `pandasError` stands for the generic `TypeError`/`ValueError`
pandas raises when `NaT`'s fields are fed to the `Timestamp` constructor.
`broadcastError` is numpy's shape-mismatch `ValueError`. -/
inductive PyError where
  | pandasError
  | emptyDatasetError
  | broadcastError
deriving DecidableEq

/-- A build record restricted to the fields the linear-time metrics read:
`org_id`, `created_at` (seconds), `image_type`. -/
structure Build where
  org_id : String
  created_at : Int
  image_type : String
deriving DecidableEq

/-- `Series.min()` over the `created_at` values: `none` models `NaT`
(empty series). -/
def seriesMin : List Int → Option Int
  | [] => none
  | x :: xs =>
    match seriesMin xs with
    | none => some x
    | some m => some (min x m)

/-- `Series.max()` over the `created_at` values: `none` models `NaT`
(empty series). -/
def seriesMax : List Int → Option Int
  | [] => none
  | x :: xs =>
    match seriesMax xs with
    | none => some x
    | some m => some (max x m)

/-- `builds[column].loc[idxs].nunique()`: number of distinct values in a
list (the column values are strings, never null). -/
def nunique (l : List String) : Nat :=
  l.dedup.length

/-- The body filter of `value_sliding_window`:
`(builds["created_at"] >= t_current-window) & (builds["created_at"] < t_current)`
followed by `builds[column].loc[idxs].nunique()`. -/
def windowCount (builds : List Build) (col : Build → String) (lo hi : Int) : Nat :=
  nunique ((builds.filter (fun b => lo ≤ b.created_at && b.created_at < hi)).map col)

/-- The `while t_current < t_end` loop of `value_sliding_window`
(`metrics.py:130-134`): at each step it records the distinct-value count
over `[t_current - window, t_current)` and the end date `t_current`, then
advances by one day. -/
def swLoop (builds : List Build) (col : Build → String) (tEnd winTd : Int)
    (t : Int) : List Nat × List Int :=
  if _h : t < tEnd then
    let rest := swLoop builds col tEnd winTd (t + dayTd)
    (windowCount builds col (t - winTd) t :: rest.1, t :: rest.2)
  else
    ([], [])
termination_by (tEnd - t).toNat
decreasing_by simp only [dayTd]; omega

/-- `value_sliding_window(builds, column, window)` (`metrics.py:115-136`).
On an empty frame `min()`/`max()` are `NaT`; then
`t_current = NaT + window = NaT` and `NaT < NaT` is `False`, so the loop
body never runs and the function returns two empty arrays — it raises
nothing. -/
def value_sliding_window (builds : List Build) (col : Build → String)
    (window : Nat) : List Nat × List Int :=
  match seriesMin (builds.map Build.created_at), seriesMax (builds.map Build.created_at) with
  | some t_start, some t_end =>
      swLoop builds col t_end ((window : Int) * dayTd) (t_start + (window : Int) * dayTd)
  | _, _ => ([], [])

/-- The body filter of `builds_over_time`: number of records (row count,
`sum(idxs)`, not distinct values) with timestamp in `[lo, hi)`. -/
def rangeCount (builds : List Build) (lo hi : Int) : Nat :=
  (builds.filter (fun b => lo ≤ b.created_at && b.created_at < hi)).length

/-- The `while t_start+period < t_end` loop of `builds_over_time`
(`metrics.py:144-148`).  For `period ≤ 0` the source loop never
terminates whenever it is entered, so the model is restricted to
`0 < period` (the guard's first conjunct); every theorem below assumes a
positive period. -/
def botLoop (builds : List Build) (tEnd per : Int) (t : Int) :
    List Int × List Nat :=
  if _h : 0 < per ∧ t + per < tEnd then
    let rest := botLoop builds tEnd per (t + per)
    (t :: rest.1, rangeCount builds t (t + per) :: rest.2)
  else
    ([], [])
termination_by (tEnd - t).toNat
decreasing_by omega

/-- `builds_over_time(builds, period)` (`metrics.py:139-150`): bins start
at the dataset minimum, step by `period`, and the function returns
`(bin_starts, n_builds)` in that order. -/
def builds_over_time (builds : List Build) (per : Int) : List Int × List Nat :=
  match seriesMin (builds.map Build.created_at), seriesMax (builds.map Build.created_at) with
  | some t_start, some t_end => botLoop builds t_end per t_start
  | _, _ => ([], [])

/-- `np.diff` over a sorted timestamp series: consecutive gaps. -/
def diffs : List Int → List Int
  | a :: b :: rest => (b - a) :: diffs (b :: rest)
  | _ => []

/-- `org_build_dates.sort_values()`: the ascending sorted sequence of one
organization's timestamps.  Any correct ascending sort produces the same
value sequence, so insertion sort stands in for pandas' quicksort. -/
def sortDates (l : List Int) : List Int :=
  List.insertionSort (· ≤ ·) l

/-- The inner `for p_idx, _ in enumerate(periods)` test of `repeat_orgs`
(`metrics.py:169-173`): some slice `periods[p_idx : p_idx+min_builds-1]`
sums to strictly less than `period`.  Like the numpy slice, the
`drop`/`take` combination clips at the end of the list. -/
def orgQualifies (dates : List Int) (min_builds : Nat) (per : Int) : Bool :=
  let periods := diffs (sortDates dates)
  (List.range periods.length).any fun p_idx =>
    ((periods.drop p_idx).take (min_builds - 1)).sum < per

/-- `builds["org_id"].unique()`: the distinct org ids.  pandas keeps the
first occurrence of each id while `List.dedup` keeps the last; every
consumer below (set membership, row counts, minima) is insensitive to
that order. -/
def uniqueOrgs (builds : List Build) : List String :=
  (builds.map Build.org_id).dedup

/-- The timestamps of one organization's builds:
`builds["created_at"].loc[builds["org_id"] == org]`. -/
def orgDates (builds : List Build) (org : String) : List Int :=
  (builds.filter (fun b => b.org_id = org)).map Build.created_at

/-- `repeat_orgs(builds, min_builds, period)` (`metrics.py:153-175`,
identical to `report.py`'s `get_repeat_orgs`): the set of org ids for
which some run of the sliced gap list sums below `period`, modelled as
the sublist of the unique org ids satisfying the test (the source
accumulates a Python set; only membership is observable).  `min_builds`
is a natural number: for `min_builds = 0` the source's slice end
`p_idx + min_builds - 1` would be the *negative* Python index `p_idx-1`,
a case no theorem below touches; `Nat` subtraction matches the source
for every `min_builds ≥ 1`. -/
def repeat_orgs (builds : List Build) (min_builds : Nat) (per : Int) : List String :=
  (uniqueOrgs builds).filter fun org => orgQualifies (orgDates builds org) min_builds per

/-- The static `type_footprint` table of `footprints` (`metrics.py:232-242`). -/
def type_footprint : List (String × String) :=
  [("rhel-edge-commit", "edge"),
   ("rhel-edge-installer", "edge"),
   ("vsphere", "private-cloud"),
   ("guest-image", "private-cloud"),
   ("image-installer", "bare-metal"),
   ("gcp", "gcp"),
   ("aws", "aws"),
   ("azure", "azure"),
   ("vhd", "azure")]

/-- `builds.replace({"image_type": type_footprint})` on one value: a value
that is a key of the mapping is replaced, any other value passes through
unchanged. -/
def applyFootprint (s : String) : String :=
  (List.lookup s type_footprint).getD s

/-- A record of the frame returned by `footprints`: the `image_type`
column has been replaced by its footprint and renamed `footprint`. -/
structure FpBuild where
  org_id : String
  created_at : Int
  footprint : String
deriving DecidableEq

/-- `footprints(builds)` (`metrics.py:221-246`): replace every
`image_type` value through `type_footprint`, then rename the column to
`footprint`. -/
def footprints (builds : List Build) : List FpBuild :=
  builds.map fun b => ⟨b.org_id, b.created_at, applyFootprint b.image_type⟩

/-- A second pass of the categorical mapper over the `footprint` column
of an already-mapped frame (what applying `footprints` twice does to the
data). -/
def mapFootprintAgain (l : List FpBuild) : List FpBuild :=
  l.map fun b => ⟨b.org_id, b.created_at, applyFootprint b.footprint⟩

/-- The Python tail slice `xs[-m:]` for a natural `m`: for `m = 0` it is
the whole list (`xs[-0:]` is `xs[0:]`), otherwise the last `m` elements
(clipping to the whole list when `m > len(xs)`, as Python does). -/
def tailSlice (xs : List α) (m : Nat) : List α :=
  if m = 0 then xs else xs.drop (xs.length - m)

/-- numpy elementwise division `a/b` of two 1-d arrays, in exact rational
arithmetic: equal lengths divide pointwise, a length-1 operand
broadcasts, any other shape pair raises a broadcast `ValueError`. -/
def npDivide (a b : List ℚ) : Except PyError (List ℚ) :=
  if a.length = b.length then
    .ok (List.zipWith (fun x y => x / y) a b)
  else if a.length = 1 then
    .ok (b.map fun y => a.headD 0 / y)
  else if b.length = 1 then
    .ok (a.map fun x => x / b.headD 0)
  else
    .error .broadcastError

/-- `dau_over_mau(builds)` (`metrics.py:206-218`): the 1-day and 30-day
sliding distinct-org series; `dau = dau[-len(mau):]` keeps the tail of
the DAU counts; the result is `dau/mau` paired with the MAU end dates.
Counts are divided as rationals where numpy divides as floats; the
claims here concern which entries are paired, which is unaffected. -/
def dau_over_mau (builds : List Build) : Except PyError (List ℚ × List Int) :=
  let dau := value_sliding_window builds Build.org_id 1
  let mau := value_sliding_window builds Build.org_id 30
  let dauTail := tailSlice dau.1 mau.1.length
  (npDivide (dauTail.map fun (n : Nat) => (n : ℚ)) (mau.1.map fun (n : Nat) => (n : ℚ))).map
    fun r => (r, mau.2)

/-- A timestamp as seen by the calendar-month functions: `month` is the
absolute month index (`year*12 + month`), `sub` the offset inside that
month (any sub-month resolution).  Chronological order is lexicographic;
`pandas.Timestamp(year=t.year, month=t.month, day=1)` is `⟨t.month, 0⟩`
and `pandas.DateOffset(months=1)` adds one to `month` of a month start. -/
structure MTime where
  month : Nat
  sub : Nat
deriving DecidableEq

/-- Chronological `<=` on timestamps (lexicographic). -/
def MTime.leB (a b : MTime) : Bool :=
  a.month < b.month || (a.month = b.month && a.sub ≤ b.sub)

/-- Chronological `<` on timestamps (lexicographic). -/
def MTime.ltB (a b : MTime) : Bool :=
  a.month < b.month || (a.month = b.month && a.sub < b.sub)

/-- A build record as the monthly metrics read it: `org_id` and a
month-resolved `created_at`. -/
structure MBuild where
  org_id : String
  created_at : MTime
deriving DecidableEq

/-- `Series.min()` over month-resolved timestamps (`none` is `NaT`). -/
def seriesMinM : List MTime → Option MTime
  | [] => none
  | x :: xs =>
    match seriesMinM xs with
    | none => some x
    | some m => some (if MTime.leB x m then x else m)

/-- `Series.max()` over month-resolved timestamps (`none` is `NaT`). -/
def seriesMaxM : List MTime → Option MTime
  | [] => none
  | x :: xs =>
    match seriesMaxM xs with
    | none => some x
    | some m => some (if MTime.leB m x then x else m)

/-- The month-bucket filter of `monthly_value` (`metrics.py:74`):
`(builds["created_at"] >= m_current) & (builds["created_at"] < m_current+month_offset)`
with `m_current` the first day of month `m`, followed by
`builds[column].loc[idxs].nunique()`. -/
def monthCount (builds : List MBuild) (col : MBuild → String) (m : Nat) : Nat :=
  nunique ((builds.filter fun b =>
    MTime.leB ⟨m, 0⟩ b.created_at && MTime.ltB b.created_at ⟨m + 1, 0⟩).map col)

/-- The `while m_current < m_end` loop of `monthly_value`
(`metrics.py:72-77`), indexed by the number `n` of remaining months
(`m_end - m_current`; the loop advances one month per iteration, so it
runs exactly that many times): per month it records the distinct-value
count and the month start. -/
def monthLoop (builds : List MBuild) (col : MBuild → String) :
    Nat → Nat → List Nat × List MTime
  | 0, _ => ([], [])
  | n + 1, m =>
    let rest := monthLoop builds col n (m + 1)
    (monthCount builds col m :: rest.1, (⟨m, 0⟩ : MTime) :: rest.2)

/-- `monthly_value(builds, column)` (`metrics.py:55-79`).  `m_start` is
the first day of the month of the minimum timestamp, `m_end` the first
day of the month after the maximum's month, and the loop walks the
months in between.  On an empty frame `min()` is `NaT`, whose
year/month fields cannot build a `Timestamp`: pandas raises a generic
error (no `EmptyDatasetError` exists in the repository). -/
def monthly_value (builds : List MBuild) (col : MBuild → String) :
    Except PyError (List Nat × List MTime) :=
  match seriesMinM (builds.map MBuild.created_at),
        seriesMaxM (builds.map MBuild.created_at) with
  | some t_start, some t_end =>
      .ok (monthLoop builds col (t_end.month + 1 - t_start.month) t_start.month)
  | _, _ => .error .pandasError

/-- `monthly_users(builds)` (`metrics.py:82-88`). -/
def monthly_users (builds : List MBuild) : Except PyError (List Nat × List MTime) :=
  monthly_value builds MBuild.org_id

/-- The first-build scan of `monthly_new_users` (`metrics.py:105-111`):
one row per distinct org, holding the minimum of that org's `created_at`
values.  The `.getD ⟨0, 0⟩` default is never reached: each org comes
from the dataset, so its date list is non-empty. -/
def first_builds (builds : List MBuild) : List MBuild :=
  ((builds.map MBuild.org_id).dedup).map fun o =>
    ⟨o, (seriesMinM ((builds.filter fun b => b.org_id = o).map MBuild.created_at)).getD ⟨0, 0⟩⟩

/-- `monthly_new_users(builds)` (`metrics.py:99-112`): `monthly_users`
over the reduced first-build frame. -/
def monthly_new_users (builds : List MBuild) : Except PyError (List Nat × List MTime) :=
  monthly_users (first_builds builds)

/-- Unfolding of chronological `<=` into arithmetic on the components. -/
theorem MTime.leB_iff {a b : MTime} :
    a.leB b = true ↔ a.month < b.month ∨ (a.month = b.month ∧ a.sub ≤ b.sub) := by
  simp [MTime.leB]

/-- Unfolding of chronological `<` into arithmetic on the components. -/
theorem MTime.ltB_iff {a b : MTime} :
    a.ltB b = true ↔ a.month < b.month ∨ (a.month = b.month ∧ a.sub < b.sub) := by
  simp [MTime.ltB]

/-- Chronological `<=` is reflexive. -/
theorem MTime.leB_refl (a : MTime) : a.leB a = true := by
  simp [MTime.leB]

/-- Chronological `<=` is transitive. -/
theorem MTime.leB_trans {a b c : MTime} (h1 : a.leB b = true)
    (h2 : b.leB c = true) : a.leB c = true := by
  rw [MTime.leB_iff] at h1 h2 ⊢; omega

/-- Chronological `<=` is total. -/
theorem MTime.leB_total (a b : MTime) : a.leB b = true ∨ b.leB a = true := by
  rw [MTime.leB_iff, MTime.leB_iff]; omega

/-- Chronological `<=` is antisymmetric. -/
theorem MTime.leB_antisymm {a b : MTime} (h1 : a.leB b = true)
    (h2 : b.leB a = true) : a = b := by
  cases a; cases b
  rw [MTime.leB_iff] at h1 h2
  simp_all
  omega

/-- `seriesMinM` of a non-empty series is `some`. -/
theorem seriesMinM_isSome {l : List MTime} (h : l ≠ []) :
    ∃ m, seriesMinM l = some m := by
  cases l with
  | nil => exact absurd rfl h
  | cons x xs =>
    rw [seriesMinM]
    cases seriesMinM xs <;> exact ⟨_, rfl⟩

/-- `seriesMaxM` of a non-empty series is `some`. -/
theorem seriesMaxM_isSome {l : List MTime} (h : l ≠ []) :
    ∃ m, seriesMaxM l = some m := by
  cases l with
  | nil => exact absurd rfl h
  | cons x xs =>
    rw [seriesMaxM]
    cases seriesMaxM xs <;> exact ⟨_, rfl⟩

/-- `seriesMinM` returns an element of the series that is `<=` every
element. -/
theorem seriesMinM_spec : ∀ {l : List MTime} {m : MTime},
    seriesMinM l = some m → m ∈ l ∧ ∀ x ∈ l, m.leB x = true := by
  intro l
  induction l with
  | nil => intro m h; simp [seriesMinM] at h
  | cons a t ih =>
    intro m h
    cases ht : seriesMinM t with
    | none =>
      simp only [seriesMinM, ht] at h
      cases t with
      | nil =>
        refine ⟨by simpa using (Option.some.inj h).symm, ?_⟩
        intro x hx
        rcases List.mem_singleton.mp hx with rfl
        rw [← Option.some.inj h]
        exact MTime.leB_refl _
      | cons b u =>
        obtain ⟨m', hm'⟩ := seriesMinM_isSome (l := b :: u) (by simp)
        rw [hm'] at ht; cases ht
    | some mm =>
      simp only [seriesMinM, ht] at h
      obtain ⟨hmem, hle⟩ := ih ht
      by_cases hcase : MTime.leB a mm = true
      · rw [if_pos hcase] at h
        rcases Option.some.inj h with rfl
        refine ⟨List.mem_cons_self _ _, ?_⟩
        intro x hx
        rcases List.mem_cons.mp hx with rfl | hx
        · exact MTime.leB_refl _
        · exact MTime.leB_trans hcase (hle x hx)
      · rw [if_neg hcase] at h
        rcases Option.some.inj h with rfl
        refine ⟨List.mem_cons_of_mem _ hmem, ?_⟩
        intro x hx
        rcases List.mem_cons.mp hx with rfl | hx
        · rcases MTime.leB_total mm x with hh | hh
          · exact hh
          · exact absurd hh hcase
        · exact hle x hx

/-- `seriesMaxM` returns an element of the series that is `>=` every
element. -/
theorem seriesMaxM_spec : ∀ {l : List MTime} {m : MTime},
    seriesMaxM l = some m → m ∈ l ∧ ∀ x ∈ l, x.leB m = true := by
  intro l
  induction l with
  | nil => intro m h; simp [seriesMaxM] at h
  | cons a t ih =>
    intro m h
    cases ht : seriesMaxM t with
    | none =>
      simp only [seriesMaxM, ht] at h
      cases t with
      | nil =>
        refine ⟨by simpa using (Option.some.inj h).symm, ?_⟩
        intro x hx
        rcases List.mem_singleton.mp hx with rfl
        rw [← Option.some.inj h]
        exact MTime.leB_refl _
      | cons b u =>
        obtain ⟨m', hm'⟩ := seriesMaxM_isSome (l := b :: u) (by simp)
        rw [hm'] at ht; cases ht
    | some mm =>
      simp only [seriesMaxM, ht] at h
      obtain ⟨hmem, hle⟩ := ih ht
      by_cases hcase : MTime.leB mm a = true
      · rw [if_pos hcase] at h
        rcases Option.some.inj h with rfl
        refine ⟨List.mem_cons_self _ _, ?_⟩
        intro x hx
        rcases List.mem_cons.mp hx with rfl | hx
        · exact MTime.leB_refl _
        · exact MTime.leB_trans (hle x hx) hcase
      · rw [if_neg hcase] at h
        rcases Option.some.inj h with rfl
        refine ⟨List.mem_cons_of_mem _ hmem, ?_⟩
        intro x hx
        rcases List.mem_cons.mp hx with rfl | hx
        · rcases MTime.leB_total x mm with hh | hh
          · exact hh
          · exact absurd hh hcase
        · exact hle x hx

/-- A member that is `<=` the whole series is the `seriesMinM`. -/
theorem seriesMinM_eq_of {l : List MTime} {x : MTime} (hx : x ∈ l)
    (hleast : ∀ y ∈ l, x.leB y = true) : seriesMinM l = some x := by
  obtain ⟨m, hm⟩ := seriesMinM_isSome (List.ne_nil_of_mem hx)
  obtain ⟨hmem, hle⟩ := seriesMinM_spec hm
  rw [hm]
  exact congrArg some (MTime.leB_antisymm (hle x hx) (hleast m hmem))

/-- A successful association-list lookup returns a pair of the list. -/
theorem lookup_mem_pair : ∀ {l : List (String × String)} {a b : String},
    List.lookup a l = some b → (a, b) ∈ l := by
  intro l
  induction l with
  | nil => intro a b h; simp [List.lookup] at h
  | cons p t ih =>
    intro a b h
    cases p with
    | mk k v =>
      by_cases hk : a = k
      · subst hk
        simp [List.lookup] at h
        simp [h]
      · have hbeq : (a == k) = false := beq_false_of_ne hk
        simp only [List.lookup, hbeq] at h
        exact List.mem_cons_of_mem _ (ih h)

/-- Every value of the `type_footprint` table is a fixed point of the
mapping (checked by evaluation over the nine entries). -/
theorem applyFootprint_values_fixed {s v : String}
    (h : (s, v) ∈ type_footprint) : applyFootprint v = v := by
  have hall : type_footprint.all (fun p => applyFootprint p.2 == p.2) = true := by decide
  have := List.all_eq_true.mp hall _ h
  simpa using this

/-- Applying the footprint mapping twice to one category equals applying
it once. -/
theorem applyFootprint_idem (s : String) :
    applyFootprint (applyFootprint s) = applyFootprint s := by
  cases h : List.lookup s type_footprint with
  | none => simp [applyFootprint, h]
  | some v =>
    have hv : applyFootprint s = v := by simp [applyFootprint, h]
    rw [hv]
    exact applyFootprint_values_fixed (lookup_mem_pair h)

/-- C8: applying the categorical footprint mapper a second time to the
footprint column leaves the mapped frame unchanged; a category not in
the table passes through unchanged; every mapped footprint value is a
fixed point of the mapping. -/
theorem footprint_mapper_idempotent (bs : List Build) (s t : String)
    (h : List.lookup t type_footprint = none) :
    mapFootprintAgain (footprints bs) = footprints bs ∧
    applyFootprint (applyFootprint s) = applyFootprint s ∧
    applyFootprint t = t := by
  refine ⟨?_, applyFootprint_idem s, by simp [applyFootprint, h]⟩
  unfold mapFootprintAgain footprints
  rw [List.map_map]
  apply List.map_congr_left
  intro b _
  simp [Function.comp, applyFootprint_idem]

/-- Witness for C8 at a concrete frame: one `vhd` build, the unmapped
category `unknown-type`. -/
theorem footprint_mapper_idempotent_witness :
    List.lookup "unknown-type" type_footprint = none ∧
    (mapFootprintAgain (footprints [⟨"o1", 0, "vhd"⟩]) = footprints [⟨"o1", 0, "vhd"⟩] ∧
     applyFootprint (applyFootprint "vhd") = applyFootprint "vhd" ∧
     applyFootprint "unknown-type" = "unknown-type") :=
  ⟨by decide, footprint_mapper_idempotent [⟨"o1", 0, "vhd"⟩] "vhd" "unknown-type" (by decide)⟩

/-- C2 counterexample: on a dataset with zero records the sliding-window
counter returns the default empty result (two empty arrays) instead of
raising, and the calendar-month counter fails with the generic pandas
error, not with an `EmptyDatasetError` (no such class exists anywhere in
the repository). -/
theorem empty_dataset_no_emptyDatasetError :
    value_sliding_window ([] : List Build) Build.org_id 30 = ([], []) ∧
    monthly_value ([] : List MBuild) MBuild.org_id = .error .pandasError ∧
    monthly_value ([] : List MBuild) MBuild.org_id ≠ .error .emptyDatasetError := by
  refine ⟨rfl, rfl, ?_⟩
  intro hc
  rw [show monthly_value ([] : List MBuild) MBuild.org_id = .error .pandasError from rfl] at hc
  exact PyError.noConfusion (Except.error.inj hc)

/-- C2 amended: given zero records, the sliding-window aggregator returns
empty count and date series without raising, for every column and window
width, and the calendar-month aggregator raises a generic pandas error
(`NaT` has no usable year/month for the `Timestamp` constructor) — not an
`EmptyDatasetError`, which the repository never defines. -/
theorem empty_dataset_behavior (col : Build → String) (mcol : MBuild → String)
    (w : Nat) :
    value_sliding_window [] col w = ([], []) ∧
    monthly_value [] mcol = .error .pandasError :=
  ⟨rfl, rfl⟩

/-- `np.diff` shortens a series by one. -/
theorem diffs_length : ∀ l : List Int, (diffs l).length = l.length - 1 := by
  intro l
  induction l with
  | nil => rfl
  | cons a t ih =>
    cases t with
    | nil => rfl
    | cons b u =>
      rw [diffs]
      simpa using ih

/-- With `min_builds = 1` every slice of gaps is empty and sums to 0, so
an organization qualifies exactly when it has at least one gap, i.e. at
least two timestamps. -/
theorem orgQualifies_one {dates : List Int} {per : Int} (hper : 0 < per) :
    orgQualifies dates 1 per = true ↔ 2 ≤ dates.length := by
  unfold orgQualifies
  simp only [Nat.sub_self, List.take_zero, List.sum_nil, List.any_eq_true,
    List.mem_range, decide_eq_true_eq]
  constructor
  · rintro ⟨i, hi, -⟩
    have h1 := diffs_length (sortDates dates)
    have h2 : (sortDates dates).length = dates.length := by
      simp [sortDates]
    omega
  · intro h2
    refine ⟨0, ?_, hper⟩
    have h1 := diffs_length (sortDates dates)
    have h3 : (sortDates dates).length = dates.length := by
      simp [sortDates]
    omega

/-- Membership in the repeat-org result decomposes into membership among
the distinct orgs plus the gap-sum test. -/
theorem repeat_orgs_mem {builds : List Build} {org : String} {mb : Nat} {per : Int} :
    org ∈ repeat_orgs builds mb per ↔
      org ∈ builds.map Build.org_id ∧ orgQualifies (orgDates builds org) mb per = true := by
  unfold repeat_orgs uniqueOrgs
  rw [List.mem_filter, List.mem_dedup]

/-- An org appears among the org ids exactly when it owns at least one
record. -/
theorem mem_orgs_iff_count_pos {builds : List Build} {org : String} :
    org ∈ builds.map Build.org_id ↔
      1 ≤ (builds.filter fun b => b.org_id = org).length := by
  rw [List.mem_map]
  constructor
  · rintro ⟨b, hb, rfl⟩
    have : b ∈ builds.filter fun b' => b'.org_id = b.org_id := by
      rw [List.mem_filter]
      exact ⟨hb, by simp⟩
    have := List.length_pos.mpr (List.ne_nil_of_mem this)
    omega
  · intro h
    have : builds.filter (fun b => b.org_id = org) ≠ [] := by
      intro hnil
      rw [hnil] at h
      simp at h
    obtain ⟨b, hb⟩ := List.exists_mem_of_ne_nil _ this
    rw [List.mem_filter] at hb
    exact ⟨b, hb.1, by simpa using hb.2⟩

/-- C9: with `min_builds = 1` the repeat-org classifier returns exactly
the organizations owning at least two records, for any positive period:
the summed slice `periods[p_idx:p_idx]` is always empty with sum
`0 < period`, so any org with at least one gap qualifies, and an org
with a single build has no gap index to scan at all. -/
theorem repeat_orgs_min_builds_one (builds : List Build) (org : String)
    (per : Int) (hper : 0 < per) :
    org ∈ repeat_orgs builds 1 per ↔
      2 ≤ (builds.filter fun b => b.org_id = org).length := by
  rw [repeat_orgs_mem, mem_orgs_iff_count_pos, orgQualifies_one hper]
  have hlen : (orgDates builds org).length =
      (builds.filter fun b => b.org_id = org).length := by
    simp [orgDates]
  rw [hlen]
  omega

/-- Witness for C9: org `A` has two builds and org `B` one; with
`min_builds = 1`, `period = 7` the classifier keeps exactly `A`. -/
theorem repeat_orgs_min_builds_one_witness :
    (0 : Int) < 7 ∧
    ("A" ∈ repeat_orgs ([⟨"A", 0, "x"⟩, ⟨"A", 5, "x"⟩, ⟨"B", 9, "x"⟩] : List Build) 1 7 ↔
      2 ≤ (([⟨"A", 0, "x"⟩, ⟨"A", 5, "x"⟩, ⟨"B", 9, "x"⟩] : List Build).filter
            fun b => b.org_id = "A").length) :=
  ⟨by decide, repeat_orgs_min_builds_one _ "A" 7 (by decide)⟩

/-- C1: evaluation at the failing input.  Org `A` has exactly two
records (`min_builds − 1` for `min_builds = 3`), one day apart
(timestamps 0 and 1 with `period = 5` in the same abstract unit), yet
the classifier includes it: the numpy slice
`periods[p_idx : p_idx+min_builds-1]` clips at the end of the gap array,
so the sum compared against `period` covers fewer than `min_builds − 1`
gaps, contradicting the claim and the function's own docstring
("built at least 'min_builds' in a period of 'period'"). -/
theorem repeat_orgs_short_org_included :
    (([⟨"A", 0, "x"⟩, ⟨"A", 1, "x"⟩] : List Build).filter fun b => b.org_id = "A").length = 3 - 1 ∧
    "A" ∈ repeat_orgs ([⟨"A", 0, "x"⟩, ⟨"A", 1, "x"⟩] : List Build) 3 5 := by
  exact ⟨by decide, by decide⟩

/-- Closed form of the month loop: starting at month `m` with `n` months
to go, it emits the counts and the month starts of `m, m+1, …, m+n-1`. -/
theorem monthLoop_eq (builds : List MBuild) (col : MBuild → String) :
    ∀ n m, monthLoop builds col n m =
      ((List.range n).map fun k => monthCount builds col (m + k),
       (List.range n).map fun k => (⟨m + k, 0⟩ : MTime)) := by
  intro n
  induction n with
  | zero => intro m; rfl
  | succ n ih =>
    intro m
    rw [monthLoop, ih, List.range_succ_eq_map]
    refine Prod.ext ?_ ?_
    · simp only [List.map_cons, List.map_map, Nat.add_zero]
      congr 1
      refine List.map_congr_left ?_
      intro k _
      simp only [Function.comp_apply]
      congr 1
      omega
    · simp only [List.map_cons, List.map_map, Nat.add_zero]
      congr 1
      refine List.map_congr_left ?_
      intro k _
      simp only [Function.comp_apply]
      congr 1
      omega

/-- `monthly_value` on a non-empty dataset, in closed form. -/
theorem monthly_value_eq {builds : List MBuild} {col : MBuild → String}
    {mn mx : MTime}
    (hmn : seriesMinM (builds.map MBuild.created_at) = some mn)
    (hmx : seriesMaxM (builds.map MBuild.created_at) = some mx) :
    monthly_value builds col =
      .ok ((List.range (mx.month + 1 - mn.month)).map
             (fun k => monthCount builds col (mn.month + k)),
           (List.range (mx.month + 1 - mn.month)).map
             (fun k => (⟨mn.month + k, 0⟩ : MTime))) := by
  simp only [monthly_value, hmn, hmx, monthLoop_eq]

/-- The month-bucket membership test of the source is exactly "the
timestamp's month equals the bucket's month". -/
theorem bucket_mem_iff {m : Nat} {t : MTime} :
    (MTime.leB ⟨m, 0⟩ t = true ∧ MTime.ltB t ⟨m + 1, 0⟩ = true) ↔ t.month = m := by
  rw [MTime.leB_iff, MTime.ltB_iff]
  simp only
  omega

/-- The dataset minimum is `<=` every record timestamp. -/
theorem min_le_created {builds : List MBuild} {mn : MTime}
    (hmn : seriesMinM (builds.map MBuild.created_at) = some mn) :
    ∀ b ∈ builds, mn.leB b.created_at = true := by
  intro b hb
  exact (seriesMinM_spec hmn).2 _ (List.mem_map_of_mem _ hb)

/-- Every record timestamp is `<=` the dataset maximum. -/
theorem created_le_max {builds : List MBuild} {mx : MTime}
    (hmx : seriesMaxM (builds.map MBuild.created_at) = some mx) :
    ∀ b ∈ builds, b.created_at.leB mx = true := by
  intro b hb
  exact (seriesMaxM_spec hmx).2 _ (List.mem_map_of_mem _ hb)

/-- C5: for a non-empty dataset the emitted month starts are the
consecutive months from the month of the minimum timestamp through the
month of the maximum timestamp (each bucket one calendar month, the last
one ending at the first day of the month after the maximum's month), and
every record timestamp lies in exactly one bucket under the source's
half-open membership test — no gaps, no overlaps. -/
theorem monthly_value_calendar_buckets (builds : List MBuild)
    (col : MBuild → String) (counts : List Nat) (starts : List MTime)
    (mn mx : MTime)
    (_h : builds ≠ [])
    (hmn : seriesMinM (builds.map MBuild.created_at) = some mn)
    (hmx : seriesMaxM (builds.map MBuild.created_at) = some mx)
    (hok : monthly_value builds col = .ok (counts, starts)) :
    starts = (List.range (mx.month + 1 - mn.month)).map
        (fun k => (⟨mn.month + k, 0⟩ : MTime)) ∧
    starts.length = mx.month + 1 - mn.month ∧
    ∀ b ∈ builds, ∃! i : Nat, i < starts.length ∧
      MTime.leB ⟨mn.month + i, 0⟩ b.created_at = true ∧
      MTime.ltB b.created_at ⟨mn.month + i + 1, 0⟩ = true := by
  rw [monthly_value_eq hmn hmx] at hok
  have hpair := Except.ok.inj hok
  have hstarts : starts = (List.range (mx.month + 1 - mn.month)).map
      (fun k => (⟨mn.month + k, 0⟩ : MTime)) := (congrArg Prod.snd hpair).symm
  refine ⟨hstarts, by rw [hstarts]; simp, ?_⟩
  intro b hb
  have h1 := min_le_created hmn b hb
  have h2 := created_le_max hmx b hb
  rw [MTime.leB_iff] at h1 h2
  have hlen : starts.length = mx.month + 1 - mn.month := by rw [hstarts]; simp
  have hbm := (bucket_mem_iff
    (m := mn.month + (b.created_at.month - mn.month))
    (t := b.created_at)).mpr (by omega)
  refine ⟨b.created_at.month - mn.month, ⟨?_, hbm.1, hbm.2⟩, ?_⟩
  · omega
  · rintro j ⟨hj1, hj2, hj3⟩
    have := bucket_mem_iff.mp ⟨hj2, hj3⟩
    omega

/-- Witness for C5 at a concrete dataset: records in months 3 and 5
(with sub-month offsets 7 and 2), giving the three buckets of months
3, 4, 5. -/
theorem monthly_value_calendar_buckets_witness :
    ([⟨"A", ⟨3, 7⟩⟩, ⟨"B", ⟨5, 2⟩⟩] : List MBuild) ≠ [] ∧
    seriesMinM (([⟨"A", ⟨3, 7⟩⟩, ⟨"B", ⟨5, 2⟩⟩] : List MBuild).map MBuild.created_at) =
      some ⟨3, 7⟩ ∧
    seriesMaxM (([⟨"A", ⟨3, 7⟩⟩, ⟨"B", ⟨5, 2⟩⟩] : List MBuild).map MBuild.created_at) =
      some ⟨5, 2⟩ ∧
    monthly_value ([⟨"A", ⟨3, 7⟩⟩, ⟨"B", ⟨5, 2⟩⟩] : List MBuild) MBuild.org_id =
      Except.ok ([1, 0, 1], [⟨3, 0⟩, ⟨4, 0⟩, ⟨5, 0⟩]) ∧
    ([⟨3, 0⟩, ⟨4, 0⟩, ⟨5, 0⟩] : List MTime) =
      (List.range (MTime.month ⟨5, 2⟩ + 1 - MTime.month ⟨3, 7⟩)).map
        (fun k => (⟨MTime.month ⟨3, 7⟩ + k, 0⟩ : MTime)) ∧
    ([⟨3, 0⟩, ⟨4, 0⟩, ⟨5, 0⟩] : List MTime).length =
      MTime.month ⟨5, 2⟩ + 1 - MTime.month ⟨3, 7⟩ ∧
    ∀ b ∈ ([⟨"A", ⟨3, 7⟩⟩, ⟨"B", ⟨5, 2⟩⟩] : List MBuild), ∃! i : Nat,
      i < ([⟨3, 0⟩, ⟨4, 0⟩, ⟨5, 0⟩] : List MTime).length ∧
      MTime.leB ⟨MTime.month ⟨3, 7⟩ + i, 0⟩ b.created_at = true ∧
      MTime.ltB b.created_at ⟨MTime.month ⟨3, 7⟩ + i + 1, 0⟩ = true := by
  refine ⟨by decide, by decide, by decide, by rfl, ?_⟩
  exact monthly_value_calendar_buckets _ MBuild.org_id [1, 0, 1] _ ⟨3, 7⟩ ⟨5, 2⟩
    (by decide) (by decide) (by decide) (by rfl)

/-- The first-build scan never loses an org: the reduced frame is
non-empty whenever the dataset is. -/
theorem first_builds_ne_nil {builds : List MBuild} (h : builds ≠ []) :
    first_builds builds ≠ [] := by
  unfold first_builds
  intro hc
  rcases List.map_eq_nil_iff.mp hc with hd
  rcases (List.dedup_eq_nil _).mp hd with hm
  exact h (List.map_eq_nil_iff.mp hm)

/-- Every row of the reduced first-build frame is witnessed by an actual
record of the dataset with the same org and the same timestamp. -/
theorem first_builds_mem {builds : List MBuild} {fb : MBuild}
    (hfb : fb ∈ first_builds builds) :
    ∃ r ∈ builds, r.org_id = fb.org_id ∧ r.created_at = fb.created_at := by
  unfold first_builds at hfb
  rcases List.mem_map.mp hfb with ⟨o, ho, rfl⟩
  rcases List.mem_map.mp (List.mem_dedup.mp ho) with ⟨r0, hr0, rfl⟩
  have hne : (builds.filter fun b => b.org_id = r0.org_id).map MBuild.created_at ≠ [] := by
    intro hc
    rcases List.map_eq_nil_iff.mp hc with hf
    have : r0 ∈ builds.filter fun b => b.org_id = r0.org_id := by
      rw [List.mem_filter]
      exact ⟨hr0, by simp⟩
    rw [hf] at this
    exact absurd this (List.not_mem_nil _)
  obtain ⟨m, hm⟩ := seriesMinM_isSome hne
  rcases (seriesMinM_spec hm).1 |> List.mem_map.mp with ⟨r, hr, hrc⟩
  rw [List.mem_filter] at hr
  refine ⟨r, hr.1, by simpa using hr.2, ?_⟩
  simp only [hm, Option.getD_some]
  exact hrc

/-- The timestamp stored for an org in the first-build frame is `<=`
every timestamp of that org's records. -/
theorem first_builds_le {builds : List MBuild} {fb : MBuild}
    (hfb : fb ∈ first_builds builds) :
    ∀ r ∈ builds, r.org_id = fb.org_id → fb.created_at.leB r.created_at = true := by
  unfold first_builds at hfb
  rcases List.mem_map.mp hfb with ⟨o, ho, rfl⟩
  intro r hr horg
  have hne : (builds.filter fun b => b.org_id = o).map MBuild.created_at ≠ [] := by
    intro hc
    rcases List.map_eq_nil_iff.mp hc with hf
    have : r ∈ builds.filter fun b => b.org_id = o := by
      rw [List.mem_filter]
      exact ⟨hr, by simpa using horg⟩
    rw [hf] at this
    exact absurd this (List.not_mem_nil _)
  obtain ⟨m, hm⟩ := seriesMinM_isSome hne
  simp only [hm, Option.getD_some]
  refine (seriesMinM_spec hm).2 _ ?_
  refine List.mem_map_of_mem _ ?_
  rw [List.mem_filter]
  exact ⟨hr, by simpa using horg⟩

/-- The minimum over the first-build frame is the minimum over the whole
dataset: the global minimum is itself some org's first build. -/
theorem first_builds_min_eq {builds : List MBuild} {mn : MTime}
    (hmn : seriesMinM (builds.map MBuild.created_at) = some mn) :
    seriesMinM ((first_builds builds).map MBuild.created_at) = some mn := by
  have hmem := (seriesMinM_spec hmn).1
  rcases List.mem_map.mp hmem with ⟨r0, hr0, hrc⟩
  have ho : r0.org_id ∈ (builds.map MBuild.org_id).dedup :=
    List.mem_dedup.mpr (List.mem_map_of_mem _ hr0)
  have hfb : (⟨r0.org_id,
      (seriesMinM ((builds.filter fun b => b.org_id = r0.org_id).map MBuild.created_at)).getD
        ⟨0, 0⟩⟩ : MBuild) ∈ first_builds builds := by
    unfold first_builds
    exact List.mem_map_of_mem _ ho
  have h1 := first_builds_le hfb r0 hr0 (by simp)
  dsimp only at h1
  rw [hrc] at h1
  rcases first_builds_mem hfb with ⟨r1, hr1, -, hc1⟩
  dsimp only at hc1
  have h2 : mn.leB ((seriesMinM ((builds.filter fun b =>
      b.org_id = r0.org_id).map MBuild.created_at)).getD ⟨0, 0⟩) = true := by
    rw [← hc1]
    exact (seriesMinM_spec hmn).2 _ (List.mem_map_of_mem _ hr1)
  have heq : (seriesMinM ((builds.filter fun b =>
      b.org_id = r0.org_id).map MBuild.created_at)).getD ⟨0, 0⟩ = mn :=
    MTime.leB_antisymm h1 h2
  refine seriesMinM_eq_of ?_ ?_
  · exact List.mem_map.mpr ⟨_, hfb, heq⟩
  · intro y hy
    rcases List.mem_map.mp hy with ⟨fb, hfb2, rfl⟩
    rcases first_builds_mem hfb2 with ⟨r, hr, -, hc⟩
    rw [← hc]
    exact (seriesMinM_spec hmn).2 _ (List.mem_map_of_mem _ hr)

/-- C10: for a non-empty dataset the month starts emitted by the monthly
new-users metric are an initial segment of those emitted by the monthly
distinct-users metric: both begin at the month of the dataset minimum
(the global minimum is some org's first build), and the new-users series
stops at the month of the latest first-seen date, which cannot exceed
the month of the latest build. -/
theorem monthly_new_users_starts_initial_segment (builds : List MBuild)
    (c1 : List Nat) (s1 : List MTime) (c2 : List Nat) (s2 : List MTime)
    (h : builds ≠ [])
    (h1 : monthly_users builds = .ok (c1, s1))
    (h2 : monthly_new_users builds = .ok (c2, s2)) :
    s2 = s1.take s2.length ∧ s2 ≠ [] := by
  obtain ⟨mn, hmn⟩ := seriesMinM_isSome (l := builds.map MBuild.created_at)
    (fun hc => h (List.map_eq_nil_iff.mp hc))
  obtain ⟨mx, hmx⟩ := seriesMaxM_isSome (l := builds.map MBuild.created_at)
    (fun hc => h (List.map_eq_nil_iff.mp hc))
  have hfne : (first_builds builds).map MBuild.created_at ≠ [] :=
    fun hc => first_builds_ne_nil h (List.map_eq_nil_iff.mp hc)
  have hmn' := first_builds_min_eq hmn
  obtain ⟨mx', hmx'⟩ := seriesMaxM_isSome hfne
  unfold monthly_users at h1
  rw [monthly_value_eq hmn hmx] at h1
  unfold monthly_new_users monthly_users at h2
  rw [monthly_value_eq hmn' hmx'] at h2
  have hs1 : s1 = (List.range (mx.month + 1 - mn.month)).map
      (fun k => (⟨mn.month + k, 0⟩ : MTime)) :=
    (congrArg Prod.snd (Except.ok.inj h1)).symm
  have hs2 : s2 = (List.range (mx'.month + 1 - mn.month)).map
      (fun k => (⟨mn.month + k, 0⟩ : MTime)) :=
    (congrArg Prod.snd (Except.ok.inj h2)).symm
  -- the maximum first-seen date is a dataset timestamp, so its month is
  -- bounded by the month of the dataset maximum
  have hmxle : mx'.month ≤ mx.month := by
    have hmem := (seriesMaxM_spec hmx').1
    rcases List.mem_map.mp hmem with ⟨fb, hfb, hrc⟩
    rcases first_builds_mem hfb with ⟨r, hr, -, hc⟩
    have := (seriesMaxM_spec hmx).2 _ (List.mem_map_of_mem MBuild.created_at hr)
    rw [hc, hrc, MTime.leB_iff] at this
    omega
  -- the reduced frame is non-empty, so its min month is at most its max month
  have hminmax : mn.month ≤ mx'.month := by
    have := (seriesMinM_spec hmn').2 _ (seriesMaxM_spec hmx').1
    rw [MTime.leB_iff] at this
    omega
  constructor
  · rw [hs1, hs2]
    simp only [List.length_map, List.length_range]
    rw [← List.map_take, List.take_range]
    have hmin : min (mx'.month + 1 - mn.month) (mx.month + 1 - mn.month) =
        mx'.month + 1 - mn.month := by omega
    rw [hmin]
  · rw [hs2]
    intro hc
    rcases List.map_eq_nil_iff.mp hc with hr
    rw [List.range_eq_nil] at hr
    omega

/-- Witness for C10: two orgs, `A` building in months 0 and 2, `B` in
month 1; the new-users series spans months 0–1, the users series months
0–2. -/
theorem monthly_new_users_starts_initial_segment_witness :
    ([⟨"A", ⟨0, 0⟩⟩, ⟨"B", ⟨1, 4⟩⟩, ⟨"A", ⟨2, 1⟩⟩] : List MBuild) ≠ [] ∧
    monthly_users ([⟨"A", ⟨0, 0⟩⟩, ⟨"B", ⟨1, 4⟩⟩, ⟨"A", ⟨2, 1⟩⟩] : List MBuild) =
      Except.ok ([1, 1, 1], [⟨0, 0⟩, ⟨1, 0⟩, ⟨2, 0⟩]) ∧
    monthly_new_users ([⟨"A", ⟨0, 0⟩⟩, ⟨"B", ⟨1, 4⟩⟩, ⟨"A", ⟨2, 1⟩⟩] : List MBuild) =
      Except.ok ([1, 1], [⟨0, 0⟩, ⟨1, 0⟩]) ∧
    (([⟨0, 0⟩, ⟨1, 0⟩] : List MTime) =
        ([⟨0, 0⟩, ⟨1, 0⟩, ⟨2, 0⟩] : List MTime).take
          ([⟨0, 0⟩, ⟨1, 0⟩] : List MTime).length ∧
      ([⟨0, 0⟩, ⟨1, 0⟩] : List MTime) ≠ []) := by
  refine ⟨by decide, by rfl, by rfl, ?_⟩
  exact monthly_new_users_starts_initial_segment
    ([⟨"A", ⟨0, 0⟩⟩, ⟨"B", ⟨1, 4⟩⟩, ⟨"A", ⟨2, 1⟩⟩] : List MBuild)
    [1, 1, 1] [⟨0, 0⟩, ⟨1, 0⟩, ⟨2, 0⟩] [1, 1] [⟨0, 0⟩, ⟨1, 0⟩]
    (by decide) (by rfl) (by rfl)

/-- Indexing a range-map list returns the mapped index. -/
theorem getD_map_range {α : Type} (f : Nat → α) (n i : Nat) (d : α) (hi : i < n) :
    ((List.range n).map f).getD i d = f i := by
  rw [List.getD_eq_getElem?_getD, List.getElem?_map, List.getElem?_range hi]
  rfl

/-- Per month, the distinct orgs among first builds are a subset of the
distinct orgs among all builds (an org's first build is one of its
builds), so the new-users count never exceeds the users count. -/
theorem monthCount_first_builds_le (builds : List MBuild) (m : Nat) :
    monthCount (first_builds builds) MBuild.org_id m ≤
      monthCount builds MBuild.org_id m := by
  unfold monthCount nunique
  rw [← List.card_toFinset, ← List.card_toFinset]
  apply Finset.card_le_card
  intro x hx
  rw [List.mem_toFinset] at hx ⊢
  rcases List.mem_map.mp hx with ⟨fb, hfb, rfl⟩
  rw [List.mem_filter] at hfb
  rcases first_builds_mem hfb.1 with ⟨r, hr, horg, hc⟩
  refine List.mem_map.mpr ⟨r, ?_, horg⟩
  rw [List.mem_filter]
  refine ⟨hr, ?_⟩
  rw [hc]
  exact hfb.2

/-- C4: wherever both the monthly distinct-users and the monthly
new-users series are defined, users-count minus new-users-count — the
returning users for the bucket — is non-negative. -/
theorem monthly_returning_users_nonneg (builds : List MBuild)
    (c1 : List Nat) (s1 : List MTime) (c2 : List Nat) (s2 : List MTime)
    (i : Nat)
    (h : builds ≠ [])
    (h1 : monthly_users builds = .ok (c1, s1))
    (h2 : monthly_new_users builds = .ok (c2, s2))
    (hi1 : i < c1.length) (hi2 : i < c2.length) :
    0 ≤ (c1.getD i 0 : Int) - (c2.getD i 0 : Int) := by
  obtain ⟨mn, hmn⟩ := seriesMinM_isSome (l := builds.map MBuild.created_at)
    (fun hc => h (List.map_eq_nil_iff.mp hc))
  obtain ⟨mx, hmx⟩ := seriesMaxM_isSome (l := builds.map MBuild.created_at)
    (fun hc => h (List.map_eq_nil_iff.mp hc))
  have hfne : (first_builds builds).map MBuild.created_at ≠ [] :=
    fun hc => first_builds_ne_nil h (List.map_eq_nil_iff.mp hc)
  have hmn' := first_builds_min_eq hmn
  obtain ⟨mx', hmx'⟩ := seriesMaxM_isSome hfne
  unfold monthly_users at h1
  rw [monthly_value_eq hmn hmx] at h1
  unfold monthly_new_users monthly_users at h2
  rw [monthly_value_eq hmn' hmx'] at h2
  have hc1 : c1 = (List.range (mx.month + 1 - mn.month)).map
      (fun k => monthCount builds MBuild.org_id (mn.month + k)) :=
    (congrArg Prod.fst (Except.ok.inj h1)).symm
  have hc2 : c2 = (List.range (mx'.month + 1 - mn.month)).map
      (fun k => monthCount (first_builds builds) MBuild.org_id (mn.month + k)) :=
    (congrArg Prod.fst (Except.ok.inj h2)).symm
  have hn1 : i < mx.month + 1 - mn.month := by
    rw [hc1] at hi1
    simpa using hi1
  have hn2 : i < mx'.month + 1 - mn.month := by
    rw [hc2] at hi2
    simpa using hi2
  rw [hc1, hc2, getD_map_range _ _ _ _ hn1, getD_map_range _ _ _ _ hn2]
  have hle := monthCount_first_builds_le builds (mn.month + i)
  omega

/-- Witness for C4: orgs `A` (months 0 and 1) and `B` (month 0); in the
first bucket both series count 2, so returning users are 0 there. -/
theorem monthly_returning_users_nonneg_witness :
    ([⟨"A", ⟨0, 0⟩⟩, ⟨"B", ⟨0, 5⟩⟩, ⟨"A", ⟨1, 3⟩⟩] : List MBuild) ≠ [] ∧
    monthly_users ([⟨"A", ⟨0, 0⟩⟩, ⟨"B", ⟨0, 5⟩⟩, ⟨"A", ⟨1, 3⟩⟩] : List MBuild) =
      Except.ok ([2, 1], [⟨0, 0⟩, ⟨1, 0⟩]) ∧
    monthly_new_users ([⟨"A", ⟨0, 0⟩⟩, ⟨"B", ⟨0, 5⟩⟩, ⟨"A", ⟨1, 3⟩⟩] : List MBuild) =
      Except.ok ([2], [⟨0, 0⟩]) ∧
    (0 : Nat) < [2, 1].length ∧ (0 : Nat) < [2].length ∧
    0 ≤ (([2, 1].getD 0 0 : Nat) : Int) - (([2].getD 0 0 : Nat) : Int) := by
  refine ⟨by decide, by rfl, by rfl, by decide, by decide, ?_⟩
  exact monthly_returning_users_nonneg
    ([⟨"A", ⟨0, 0⟩⟩, ⟨"B", ⟨0, 5⟩⟩, ⟨"A", ⟨1, 3⟩⟩] : List MBuild)
    [2, 1] [⟨0, 0⟩, ⟨1, 0⟩] [2] [⟨0, 0⟩] 0
    (by decide) (by rfl) (by rfl) (by decide) (by decide)

/-- Closed form of the sliding-window loop: starting at `t` it emits one
entry per day-stepped window end `t, t+1d, …` strictly below `tEnd`. -/
theorem swLoop_eq (builds : List Build) (col : Build → String)
    (tEnd winTd t : Int) :
    swLoop builds col tEnd winTd t =
      ((List.range ((tEnd - t - 1) / dayTd + 1).toNat).map
         (fun (k : Nat) => windowCount builds col (t + (k : Int) * dayTd - winTd)
            (t + (k : Int) * dayTd)),
       (List.range ((tEnd - t - 1) / dayTd + 1).toNat).map
         (fun (k : Nat) => t + (k : Int) * dayTd)) := by
  by_cases h : t < tEnd
  · rw [swLoop, dif_pos h]
    have ih := swLoop_eq builds col tEnd winTd (t + dayTd)
    have hn : ((tEnd - t - 1) / dayTd + 1).toNat
        = ((tEnd - (t + dayTd) - 1) / dayTd + 1).toNat + 1 := by
      simp only [dayTd]
      omega
    rw [ih, hn, List.range_succ_eq_map]
    refine Prod.ext ?_ ?_
    · simp only [List.map_cons, List.map_map]
      refine congrArg₂ List.cons ?_ ?_
      · push_cast
        ring_nf
      · refine List.map_congr_left ?_
        intro k _
        simp only [Function.comp_apply, Nat.succ_eq_add_one]
        push_cast
        ring_nf
    · simp only [List.map_cons, List.map_map]
      refine congrArg₂ List.cons ?_ ?_
      · push_cast
        ring
      · refine List.map_congr_left ?_
        intro k _
        simp only [Function.comp_apply, Nat.succ_eq_add_one]
        push_cast
        ring
  · rw [swLoop, dif_neg h]
    have hn : ((tEnd - t - 1) / dayTd + 1).toNat = 0 := by
      simp only [dayTd]
      omega
    rw [hn]
    rfl
termination_by (tEnd - t).toNat
decreasing_by simp only [dayTd]; omega

/-- C6: on a non-empty dataset the sliding-window aggregator emits one
entry per window end `t_min + W days + k days` for exactly those ends
strictly below the maximum timestamp; the entry pairs the end with the
distinct-value count over `[end - W days, end)` (0 when the window holds
no records, never omitted). -/
theorem value_sliding_window_spec (builds : List Build) (col : Build → String)
    (window : Nat) (mn mx : Int)
    (_h : builds ≠ [])
    (hmn : seriesMin (builds.map Build.created_at) = some mn)
    (hmx : seriesMax (builds.map Build.created_at) = some mx) :
    value_sliding_window builds col window =
      ((List.range ((mx - (mn + (window : Int) * dayTd) - 1) / dayTd + 1).toNat).map
         (fun (k : Nat) => windowCount builds col (mn + (k : Int) * dayTd)
            (mn + (window : Int) * dayTd + (k : Int) * dayTd)),
       (List.range ((mx - (mn + (window : Int) * dayTd) - 1) / dayTd + 1).toNat).map
         (fun (k : Nat) => mn + (window : Int) * dayTd + (k : Int) * dayTd)) ∧
    ∀ k : Nat, (mn + (window : Int) * dayTd + (k : Int) * dayTd < mx ↔
      k < ((mx - (mn + (window : Int) * dayTd) - 1) / dayTd + 1).toNat) := by
  constructor
  · simp only [value_sliding_window, hmn, hmx, swLoop_eq]
    refine Prod.ext ?_ ?_
    · refine List.map_congr_left ?_
      intro k _
      congr 1
      ring
    · refine List.map_congr_left ?_
      intro k _
      ring
  · intro k
    simp only [dayTd]
    omega

/-- `seriesMin` of a non-empty series is `some`. -/
theorem seriesMin_isSome {l : List Int} (h : l ≠ []) :
    ∃ m, seriesMin l = some m := by
  cases l with
  | nil => exact absurd rfl h
  | cons x xs =>
    rw [seriesMin]
    cases seriesMin xs <;> exact ⟨_, rfl⟩

/-- `seriesMax` of a non-empty series is `some`. -/
theorem seriesMax_isSome {l : List Int} (h : l ≠ []) :
    ∃ m, seriesMax l = some m := by
  cases l with
  | nil => exact absurd rfl h
  | cons x xs =>
    rw [seriesMax]
    cases seriesMax xs <;> exact ⟨_, rfl⟩

/-- Witness for C6 at a one-record dataset: the span is empty, so no
window fits and both series are empty (the range bound evaluates to 0). -/
theorem value_sliding_window_spec_witness :
    ([⟨"A", 0, "x"⟩] : List Build) ≠ [] ∧
    seriesMin (([⟨"A", 0, "x"⟩] : List Build).map Build.created_at) = some 0 ∧
    seriesMax (([⟨"A", 0, "x"⟩] : List Build).map Build.created_at) = some 0 ∧
    ((value_sliding_window ([⟨"A", 0, "x"⟩] : List Build) Build.org_id 1 =
      ((List.range ((0 - (0 + ((1 : Nat) : Int) * dayTd) - 1) / dayTd + 1).toNat).map
         (fun (k : Nat) => windowCount ([⟨"A", 0, "x"⟩] : List Build) Build.org_id
            (0 + (k : Int) * dayTd)
            (0 + ((1 : Nat) : Int) * dayTd + (k : Int) * dayTd)),
       (List.range ((0 - (0 + ((1 : Nat) : Int) * dayTd) - 1) / dayTd + 1).toNat).map
         (fun (k : Nat) => 0 + ((1 : Nat) : Int) * dayTd + (k : Int) * dayTd))) ∧
     ∀ k : Nat, ((0 : Int) + ((1 : Nat) : Int) * dayTd + (k : Int) * dayTd < 0 ↔
       k < ((0 - (0 + ((1 : Nat) : Int) * dayTd) - 1) / dayTd + 1).toNat)) := by
  refine ⟨by decide, by decide, by decide, ?_⟩
  exact value_sliding_window_spec ([⟨"A", 0, "x"⟩] : List Build) Build.org_id 1 0 0
    (by decide) (by decide) (by decide)

/-- Length of a Python tail slice that fits inside the list. -/
theorem tailSlice_length {α : Type} (xs : List α) (m : Nat) (hm : m ≠ 0)
    (hle : m ≤ xs.length) : (tailSlice xs m).length = m := by
  unfold tailSlice
  rw [if_neg hm]
  simp only [List.length_drop]
  omega

/-- A tail slice of a range-map keeps exactly the mapped tail indices. -/
theorem tailSlice_range_map {α : Type} (f : Nat → α) (a b : Nat) (hb : b ≠ 0) :
    tailSlice ((List.range (a + b)).map f) b = (List.range b).map (fun k => f (a + k)) := by
  unfold tailSlice
  rw [if_neg hb]
  simp only [List.length_map, List.length_range, Nat.add_sub_cancel]
  rw [List.range_add a b, List.map_append, List.drop_left' (by simp), List.map_map]
  rfl

/-- numpy division of equal-length arrays is elementwise. -/
theorem npDivide_eq_ok {a b : List ℚ} (h : a.length = b.length) :
    npDivide a b = .ok (List.zipWith (fun x y => x / y) a b) := by
  unfold npDivide
  rw [if_pos h]

/-- C7: whenever the 30-day (MAU) series is non-empty, the DAU/MAU
metric is the elementwise ratio of the tail of the 1-day series, sliced
to the MAU length, over the MAU series, paired with the MAU end dates;
and that sliced DAU tail carries exactly the MAU end timestamps (the two
series share their final end date and step one day alike). -/
theorem dau_over_mau_aligned (builds : List Build)
    (hm : (value_sliding_window builds Build.org_id 30).2 ≠ []) :
    dau_over_mau builds = Except.ok
      (List.zipWith (fun x y => x / y)
        ((tailSlice (value_sliding_window builds Build.org_id 1).1
            (value_sliding_window builds Build.org_id 30).1.length).map
          (fun (n : Nat) => (n : ℚ)))
        ((value_sliding_window builds Build.org_id 30).1.map (fun (n : Nat) => (n : ℚ))),
       (value_sliding_window builds Build.org_id 30).2) ∧
    tailSlice (value_sliding_window builds Build.org_id 1).2
        (value_sliding_window builds Build.org_id 30).2.length =
      (value_sliding_window builds Build.org_id 30).2 := by
  have hb : builds ≠ [] := by
    intro hc
    rw [hc] at hm
    exact hm rfl
  obtain ⟨mn, hmn⟩ := seriesMin_isSome (l := builds.map Build.created_at)
    (fun hc => hb (List.map_eq_nil_iff.mp hc))
  obtain ⟨mx, hmx⟩ := seriesMax_isSome (l := builds.map Build.created_at)
    (fun hc => hb (List.map_eq_nil_iff.mp hc))
  simp only [value_sliding_window, hmn, hmx, swLoop_eq] at hm ⊢
  simp only [ne_eq, List.map_eq_nil_iff, List.range_eq_nil] at hm
  have hk : ((mx - (mn + ((1 : Nat) : Int) * dayTd) - 1) / dayTd + 1).toNat =
      29 + ((mx - (mn + ((30 : Nat) : Int) * dayTd) - 1) / dayTd + 1).toNat := by
    simp only [dayTd] at hm ⊢
    push_cast at hm ⊢
    omega
  constructor
  · simp only [dau_over_mau, value_sliding_window, hmn, hmx, swLoop_eq,
      List.length_map, List.length_range]
    rw [hk, tailSlice_range_map _ 29 _ hm]
    rw [npDivide_eq_ok (by simp)]
    rfl
  · simp only [List.length_map, List.length_range]
    rw [hk, tailSlice_range_map _ 29 _ hm]
    refine List.map_congr_left ?_
    intro k _
    push_cast
    ring

/-- Witness for C7: two records 30 days plus 2 seconds apart, so the MAU
series has exactly one window and the DAU tail aligns with it. -/
theorem dau_over_mau_aligned_witness :
    (value_sliding_window ([⟨"A", 0, "x"⟩, ⟨"B", 2592002, "x"⟩] : List Build)
        Build.org_id 30).2 ≠ [] ∧
    (dau_over_mau ([⟨"A", 0, "x"⟩, ⟨"B", 2592002, "x"⟩] : List Build) = Except.ok
      (List.zipWith (fun x y => x / y)
        ((tailSlice (value_sliding_window ([⟨"A", 0, "x"⟩, ⟨"B", 2592002, "x"⟩] : List Build)
              Build.org_id 1).1
            (value_sliding_window ([⟨"A", 0, "x"⟩, ⟨"B", 2592002, "x"⟩] : List Build)
              Build.org_id 30).1.length).map
          (fun (n : Nat) => (n : ℚ)))
        ((value_sliding_window ([⟨"A", 0, "x"⟩, ⟨"B", 2592002, "x"⟩] : List Build)
            Build.org_id 30).1.map (fun (n : Nat) => (n : ℚ))),
       (value_sliding_window ([⟨"A", 0, "x"⟩, ⟨"B", 2592002, "x"⟩] : List Build)
          Build.org_id 30).2) ∧
     tailSlice (value_sliding_window ([⟨"A", 0, "x"⟩, ⟨"B", 2592002, "x"⟩] : List Build)
          Build.org_id 1).2
        (value_sliding_window ([⟨"A", 0, "x"⟩, ⟨"B", 2592002, "x"⟩] : List Build)
          Build.org_id 30).2.length =
      (value_sliding_window ([⟨"A", 0, "x"⟩, ⟨"B", 2592002, "x"⟩] : List Build)
        Build.org_id 30).2) := by
  refine ⟨?_, ?_⟩
  · simp only [value_sliding_window, swLoop_eq]
    decide
  · exact dau_over_mau_aligned ([⟨"A", 0, "x"⟩, ⟨"B", 2592002, "x"⟩] : List Build)
      (by simp only [value_sliding_window, swLoop_eq]; decide)

/-- Closed form of the fixed-period binning loop for a positive period:
starting at `t` it emits the bin starts `t, t+P, t+2P, …` for exactly
those bins whose **end** `t+kP+P` lies strictly before `tEnd`. -/
theorem botLoop_eq (builds : List Build) (tEnd per : Int) (hper : 0 < per)
    (t : Int) :
    botLoop builds tEnd per t =
      ((List.range ((tEnd - t - 1) / per).toNat).map
         (fun (k : Nat) => t + (k : Int) * per),
       (List.range ((tEnd - t - 1) / per).toNat).map
         (fun (k : Nat) => rangeCount builds (t + (k : Int) * per)
            (t + (k : Int) * per + per))) := by
  by_cases h : t + per < tEnd
  · rw [botLoop, dif_pos ⟨hper, h⟩]
    have ih := botLoop_eq builds tEnd per hper (t + per)
    have hshift : (tEnd - (t + per) - 1) / per = (tEnd - t - 1) / per - 1 := by
      have harg : tEnd - (t + per) - 1 = (tEnd - t - 1) + (-1) * per := by ring
      rw [harg, Int.add_mul_ediv_right _ _ (by omega : per ≠ 0)]
      ring
    have hq1 : 1 ≤ (tEnd - t - 1) / per := by
      rw [Int.le_ediv_iff_mul_le hper]
      omega
    have hn : ((tEnd - t - 1) / per).toNat
        = ((tEnd - (t + per) - 1) / per).toNat + 1 := by
      rw [hshift]
      generalize (tEnd - t - 1) / per = q at hq1 ⊢
      omega
    rw [ih, hn, List.range_succ_eq_map]
    refine Prod.ext ?_ ?_
    · simp only [List.map_cons, List.map_map]
      refine congrArg₂ List.cons ?_ ?_
      · push_cast
        ring
      · refine List.map_congr_left ?_
        intro k _
        simp only [Function.comp_apply, Nat.succ_eq_add_one]
        push_cast
        ring
    · simp only [List.map_cons, List.map_map]
      refine congrArg₂ List.cons ?_ ?_
      · push_cast
        ring_nf
      · refine List.map_congr_left ?_
        intro k _
        simp only [Function.comp_apply, Nat.succ_eq_add_one]
        push_cast
        ring_nf
  · rw [botLoop, dif_neg (fun hc => h hc.2)]
    have hq : (tEnd - t - 1) / per < 1 := by
      rw [Int.ediv_lt_iff_lt_mul hper]
      omega
    have hn : ((tEnd - t - 1) / per).toNat = 0 := by
      generalize (tEnd - t - 1) / per = q at hq
      omega
    rw [hn]
    rfl
termination_by (tEnd - t).toNat
decreasing_by omega

/-- A bin index is inside the emitted range exactly when its bin's end
lies strictly before the dataset maximum. -/
theorem bin_index_iff {per : Int} (hper : 0 < per) (mn mx : Int) (k : Nat) :
    k < ((mx - mn - 1) / per).toNat ↔ mn + (k : Int) * per + per < mx := by
  constructor
  · intro hk
    have h1 : (k : Int) + 1 ≤ (mx - mn - 1) / per := by
      generalize (mx - mn - 1) / per = q at hk ⊢
      omega
    have h2 := (Int.le_ediv_iff_mul_le hper).mp h1
    have hexp : ((k : Int) + 1) * per = (k : Int) * per + per := by ring
    linarith
  · intro hlt
    have hexp : ((k : Int) + 1) * per = (k : Int) * per + per := by ring
    have h1 : ((k : Int) + 1) * per ≤ mx - mn - 1 := by linarith
    have h2 : (k : Int) + 1 ≤ (mx - mn - 1) / per := (Int.le_ediv_iff_mul_le hper).mpr h1
    generalize (mx - mn - 1) / per = q at h2 ⊢
    omega

/-- C3 amended: with a positive period and a non-empty dataset, the bins
start at the dataset minimum and step by the period, and a bin is
emitted exactly when its **end** `start + (k+1)·P` lies strictly before
the dataset maximum: the loop stops before a bin would end at or after
`t_end`, so the final bin is dropped not only when it straddles the
maximum but also when it would end exactly at it. -/
theorem builds_over_time_bins (builds : List Build) (per mn mx : Int)
    (hper : 0 < per) (_h : builds ≠ [])
    (hmn : seriesMin (builds.map Build.created_at) = some mn)
    (hmx : seriesMax (builds.map Build.created_at) = some mx) :
    (builds_over_time builds per).1 =
      (List.range ((mx - mn - 1) / per).toNat).map
        (fun (k : Nat) => mn + (k : Int) * per) ∧
    ∀ k : Nat, ((mn + (k : Int) * per) ∈ (builds_over_time builds per).1 ↔
      mn + (k : Int) * per + per < mx) := by
  have e : builds_over_time builds per = botLoop builds mx per mn := by
    simp only [builds_over_time, hmn, hmx]
  constructor
  · rw [e, botLoop_eq _ _ _ hper]
  · intro k
    rw [e, botLoop_eq _ _ _ hper]
    simp only [List.mem_map, List.mem_range]
    constructor
    · rintro ⟨j, hj, heq⟩
      have h2 : (j : Int) * per = (k : Int) * per := by
        linarith
      have h3 : (j : Int) = (k : Int) := mul_right_cancel₀ (by omega : per ≠ 0) h2
      have h4 : j = k := by exact_mod_cast h3
      subst h4
      exact (bin_index_iff hper mn mx j).mp hj
    · intro hlt
      exact ⟨k, (bin_index_iff hper mn mx k).mpr hlt, rfl⟩

/-- Witness for C3's amended statement: records at 0 and 2000001 with
period 1000000 give exactly the two bins starting at 0 and 1000000. -/
theorem builds_over_time_bins_witness :
    (0 : Int) < 1000000 ∧
    ([⟨"A", 0, "x"⟩, ⟨"B", 2000001, "x"⟩] : List Build) ≠ [] ∧
    seriesMin (([⟨"A", 0, "x"⟩, ⟨"B", 2000001, "x"⟩] : List Build).map Build.created_at) =
      some 0 ∧
    seriesMax (([⟨"A", 0, "x"⟩, ⟨"B", 2000001, "x"⟩] : List Build).map Build.created_at) =
      some 2000001 ∧
    ((builds_over_time ([⟨"A", 0, "x"⟩, ⟨"B", 2000001, "x"⟩] : List Build) 1000000).1 =
      (List.range (((2000001 : Int) - 0 - 1) / 1000000).toNat).map
        (fun (k : Nat) => 0 + (k : Int) * 1000000) ∧
     ∀ k : Nat, (((0 : Int) + (k : Int) * 1000000) ∈
        (builds_over_time ([⟨"A", 0, "x"⟩, ⟨"B", 2000001, "x"⟩] : List Build) 1000000).1 ↔
      (0 : Int) + (k : Int) * 1000000 + 1000000 < 2000001)) := by
  refine ⟨by decide, by decide, by decide, by decide, ?_⟩
  exact builds_over_time_bins ([⟨"A", 0, "x"⟩, ⟨"B", 2000001, "x"⟩] : List Build)
    1000000 0 2000001 (by decide) (by decide) (by decide) (by decide)

/-- C3 counterexample: records at 0 and 864000 (ten days apart, in
seconds) with period 864000.  The full period `[0, 864000)` fits exactly
inside `[min, max)` and, under the claim's stopping rule ("stop before a
bucket would start at or after the end"), its start 0 would be emitted;
the code emits no bucket at all, because its loop stops as soon as a
bucket would *end* at or after the maximum. -/
theorem builds_over_time_drops_exact_final_period :
    seriesMin (([⟨"A", 0, "x"⟩, ⟨"B", 864000, "x"⟩] : List Build).map Build.created_at) =
      some 0 ∧
    seriesMax (([⟨"A", 0, "x"⟩, ⟨"B", 864000, "x"⟩] : List Build).map Build.created_at) =
      some 864000 ∧
    (builds_over_time ([⟨"A", 0, "x"⟩, ⟨"B", 864000, "x"⟩] : List Build) 864000).1 = [] ∧
    ¬ (0 : Int) ∈ (builds_over_time ([⟨"A", 0, "x"⟩, ⟨"B", 864000, "x"⟩] : List Build)
        864000).1 := by
  have e : builds_over_time ([⟨"A", 0, "x"⟩, ⟨"B", 864000, "x"⟩] : List Build) 864000 =
      botLoop ([⟨"A", 0, "x"⟩, ⟨"B", 864000, "x"⟩] : List Build) 864000 864000 0 := rfl
  have e2 := botLoop_eq ([⟨"A", 0, "x"⟩, ⟨"B", 864000, "x"⟩] : List Build)
    864000 864000 (by decide) 0
  refine ⟨by decide, by decide, ?_, ?_⟩
  · rw [e, e2]
    decide
  · rw [e, e2]
    decide
